import Mathlib

/-!
Verification development for the Luna outbound-messaging backend.

The definitions below are a shallow embedding of the dispatch-scheduler core:
the schedule generator (src/utils/schedule.js), the abortable sleep and the
run coordinator runLoopForClient (server.js), and the progress snapshot
buffer (src/utils/progress.js) together with the replay logic of the
GET /api/progress subscription handler.

JavaScript numbers are embedded as Nat or Int (all arithmetic involved is
exact integer arithmetic), Postgres tables as lists of records, the
process-local Sets (runningClients, stopRequests) as a list and a flag, and
external nondeterminism (Math.random, dispatcher outcomes, transaction
failures, the arrival time of an operator stop request) as explicit oracle
fields of an environment record.
-/

namespace Luna

/-! ## Schedule generator (src/utils/schedule.js, generateScheduleDelays)

The JS function samples distinct integer offsets uniformly from [0, span]
by rejection (a while loop adding Math.floor(Math.random()*(span+1)) to a
Set until it has msgCount members), sorts them ascending, and converts them
to successive delays.  The random stream is embedded as a function
rand : Nat -> Nat (taking the value modulo span+1 embeds the range of
Math.floor(Math.random()*(span+1))), and the while loop is given explicit
fuel; the sampling loop of the source terminates only probabilistically, so
theorems about a completed sample carry the hypothesis that the fuel
sufficed (the sampled list reached its target length). -/

/-- The rejection-sampling while loop: repeatedly draw rand k mod (span+1),
keeping a duplicate-free accumulator, until it has target members (or fuel
runs out). -/
def sampleOffsets (rand : Nat → Nat) (span target : Nat) : Nat → List Nat → List Nat
  | 0, acc => acc
  | fuel + 1, acc =>
    if target ≤ acc.length then acc
    else
      let v := rand fuel % (span + 1)
      sampleOffsets rand span target fuel (if v ∈ acc then acc else v :: acc)

/-- Conversion of sorted absolute offsets to successive deltas: the loop
delays.push(i === 0 ? (effectiveStart - nowSec) + off : off - prev).
This function produces the tail (the i > 0 entries), given the previous
offset. -/
def deltasFrom (prev : Int) : List Nat → List Int
  | [] => []
  | o :: rest => ((o : Int) - prev) :: deltasFrom (o : Int) rest

/-- The delta-conversion loop over the full sorted offset list: the first
delay is (effectiveStart - nowSec) + offsets[0] (lead is
effectiveStart - nowSec), each later delay is the difference of successive
offsets. -/
def delaysOfSorted (lead : Int) : List Nat → List Int
  | [] => []
  | o :: rest => (lead + (o : Int)) :: deltasFrom (o : Int) rest

/-- generateScheduleDelays(count, startStr, endStr) of src/utils/schedule.js,
with the three wall-clock quantities (current time, window start, window end)
already converted to seconds since midnight (hmsToSeconds / the getHours
arithmetic of the source). -/
def generateScheduleDelays (rand : Nat → Nat) (fuel : Nat)
    (count nowSec startSec endSec : Nat) : List Int :=
  if endSec ≤ max nowSec startSec then []
  else
    delaysOfSorted ((max nowSec startSec : Int) - (nowSec : Int))
      ((sampleOffsets rand (endSec - max nowSec startSec)
          (min count (endSec - max nowSec startSec)) fuel []).insertionSort (· ≤ ·))

/-- Cumulative sums of a delay list, starting from a base accumulator: the
schedule event reconstruction acc += delays[i]; planned.push(now + acc). -/
def cumsumFrom (acc : Int) : List Int → List Int
  | [] => []
  | d :: rest => (acc + d) :: cumsumFrom (acc + d) rest

/-- Cumulative sums of a delay list (base 0). -/
def cumsum (l : List Int) : List Int := cumsumFrom 0 l

/-! ## Abortable sleep (server.js, sleepAbortable)

The source polls the stop flag every 250 ms: while elapsed < ms it checks
the flag, sleeps min(250, ms - elapsed), and adds 250 to elapsed.  The flag
is embedded as a function stops : Nat -> Bool of real elapsed time; the poll
with counter e happens at real time e (the partial final sleep makes the
real completion time of the non-aborted loop exactly ms).  The result pairs
the returned string with the real completion time. -/
def sleepLoop (stops : Nat → Bool) (ms : Nat) (e : Nat) : String × Nat :=
  if e < ms then
    if stops e then ("aborted", e)
    else sleepLoop stops ms (e + 250)
  else ("ok", ms)
termination_by ms - e
decreasing_by omega

/-- sleepAbortable(ms, slug): the loop started at elapsed = 0. -/
def sleepAbortable (stops : Nat → Bool) (ms : Nat) : String × Nat :=
  sleepLoop stops ms 0

/-! ## Progress events and the snapshot buffer (src/utils/progress.js) -/

/-- Progress events (the payloads emitted on the per-tenant emitter).  The
schedule event carries the planned cumulative offsets (the source derives
ISO timestamps from exactly these sums), the remaining daily quota and the
cap. -/
inductive Event where
  | start (total : Nat)
  | schedule (planned : List Int) (remainingToday cap : Nat)
  | item (name phone : String) (ok : Bool) (status : String)
  | ended (processed : Nat) (reason : Option String)
deriving DecidableEq, Repr

/-- The per-tenant progress snapshot: last start event, buffered item
events, last end event. -/
structure Snapshot where
  lastStart : Option Event
  items : List Event
  lastEnd : Option Event
deriving DecidableEq, Repr

/-- snapshotStart(slug, total): fresh snapshot for a new run. -/
def snapshotStart (total : Nat) : Snapshot :=
  { lastStart := some (Event.start total), items := [], lastEnd := none }

/-- snapshotPush(slug, evt): append the event and drop the oldest entry when
the buffer exceeds 200 entries (st.items.push(evt); if length > 200 shift). -/
def snapshotPush (st : Snapshot) (e : Event) : Snapshot :=
  let items := st.items ++ [e]
  { st with items := if 200 < items.length then items.tail else items }

/-- snapshotEnd(slug, processed, extra): record the end event. -/
def snapshotEnd (st : Snapshot) (processed : Nat) (reason : Option String) : Snapshot :=
  { st with lastEnd := some (Event.ended processed reason) }

/-- The replay performed by the GET /api/progress handler on subscribe:
write lastStart if any, then every buffered item, then lastEnd if any.
(The handler first writes an SSE ping, which is a transport keep-alive and
not a progress event.) -/
def replay (st : Option Snapshot) : List Event :=
  match st with
  | none => []
  | some st => st.lastStart.toList ++ st.items ++ st.lastEnd.toList

/-- The full stream a subscriber receives: the replay of the snapshot
followed by every event emitted after the listener is registered (the
handler registers the live listener in the same synchronous block as the
replay, so no event falls between the two). -/
def subscriberStream (st : Option Snapshot) (live : List Event) : List Event :=
  replay st ++ live

/-! ## The run coordinator (server.js, runLoopForClient)

Data model: the per-tenant queue table (slug) and history table
(slug_totais) become lists of records; timestamps are kept at calendar-day
granularity (updated_at::date = CURRENT_DATE becomes equality of day
numbers).  The process-local Sets runningClients and stopRequests of
src/config.js become a list of slugs and a per-tenant flag.

An operator stop request (POST /api/stop-loop adds the slug to
stopRequests, and the flag is only removed in the finally block of the run)
is visible monotonically: once set it stays set for the rest of the run.
The run observes the flag at a fixed linear sequence of checkpoints; the
environment records the checkpoint index from which the flag is visible
(none when no stop is ever requested).  Checkpoint indices: 0 is the
pre-loop check (line "if (stopRequests.has(clientSlug)) manualStop = true"),
and iteration i has 4i+1 (loop top), 4i+2 (the polls inside the abortable
sleep), 4i+3 (the re-check after the sleep), 4i+4 (the re-check after the
dispatcher call, before the commit). -/

/-- One queued contact (a row of the per-tenant queue table). -/
structure QueueItem where
  name : String
  phone : String
  niche : Option String
deriving DecidableEq, Repr

/-- One history row (a row of the slug_totais table; phone is its unique
key, enforced by the tables ON CONFLICT (phone) upsert). -/
structure HistItem where
  name : String
  phone : String
  niche : Option String
  sent : Bool
  updatedDay : Nat
deriving DecidableEq, Repr

/-- The tenant rows of client_settings the run reads: ia_auto and
daily_limit (daily_limit may be NULL or nonpositive; the run resolves it). -/
structure Settings where
  iaAuto : Bool
  dailyLimitRaw : Int
deriving DecidableEq, Repr

/-- Persistent plus process-local state touched by one run: the tenant
queue and history tables, the persisted loop_status of client_settings, the
runningClients single-flight set and the stopRequests membership of this
tenant. -/
structure Sys where
  queue : List QueueItem
  hist : List HistItem
  loopStatus : String
  running : List String
  stopFlag : Bool
deriving DecidableEq, Repr

/-- Where a per-contact transaction fails: early (BEGIN, DELETE or the
upsert INSERT throws, before processed is incremented) or late (the COMMIT
throws, after processed++ already ran for a successful send).  Either way
the transaction is rolled back and the tables are unchanged. -/
inductive TxnFail where
  | early
  | late
deriving DecidableEq, Repr

/-- The statements of the run whose exception escapes to the top-level
catch (everything else that can fail is wrapped in its own try/catch):
the initial loop_status=running upsert, the getClientSettings query, the
loop_status=idle update of the quota exit, the contact selection (both the
primary query and its niche fallback), and the final loop_status=idle
upsert. -/
inductive CrashPoint where
  | persistRunning
  | getSettings
  | quotaIdle
  | select (i : Nat)
  | finalIdle
deriving DecidableEq, Repr

/-- The environment of one runLoopForClient call: the tenant, the call
options, the resolved batch size (parseInt(process.env.LOOP_BATCH_SIZE) ||
opts.batchSize || DAILY_MESSAGE_COUNT), todays date, the wall-clock data
fed to the schedule generator, and the oracles for every external
nondeterminism of the run. -/
structure Env where
  slug : String
  iaAutoOverride : Option Bool
  batchSize : Nat
  tableExists : Bool
  settings : Settings
  today : Nat
  nowSec : Nat
  startSec : Nat
  endSec : Nat
  rand : Nat → Nat
  fuel : Nat
  totalCountFails : Bool
  sentCountFails : Bool
  stopTime : Option Nat
  dispatchOk : Nat → Bool
  txnFail : Nat → Option TxnFail
  crashAt : Option CrashPoint

/-- Whether the stop flag is visible at checkpoint index t. -/
def stopAt (env : Env) (t : Nat) : Bool :=
  match env.stopTime with
  | none => false
  | some s => s ≤ t

/-- Checkpoint index of the pre-loop stop check. -/
def checkPre : Nat := 0

/-- Checkpoint index of the loop-top stop check of iteration i. -/
def checkTop (i : Nat) : Nat := 4 * i + 1

/-- Checkpoint index of the polls inside the abortable sleep of iteration i. -/
def checkSleep (i : Nat) : Nat := 4 * i + 2

/-- Checkpoint index of the post-sleep stop re-check of iteration i. -/
def checkPostSleep (i : Nat) : Nat := 4 * i + 3

/-- Checkpoint index of the post-dispatch stop re-check of iteration i. -/
def checkPostDispatch (i : Nat) : Nat := 4 * i + 4

/-- validateSlug of server.js: the regex test
^cliente_[a-z0-9_]+$ || ^[a-z0-9_]+$.  The second alternative subsumes the
first, so a slug is valid iff it is a nonempty string over [a-z0-9_]. -/
def isSlugChar (c : Char) : Bool :=
  (decide ('a' ≤ c) && decide (c ≤ 'z')) || (decide ('0' ≤ c) && decide (c ≤ '9')) || c == '_'

/-- validateSlug(slug). -/
def validateSlug (s : String) : Bool :=
  !s.isEmpty && s.toList.all isSlugChar

/-- Whether the history table marks the phone as already sent: the LEFT
JOIN condition (t.mensagem_enviada IS NOT TRUE OR t.phone IS NULL) fails
exactly when a history row with this phone has sent = true. -/
def histSent (hist : List HistItem) (phone : String) : Bool :=
  hist.any (fun h => h.phone == phone && h.sent)

/-- Eligibility of a queue row for selection in the current run: its phone
is not marked sent in history and is not in the attemptedPhones NOT IN
clause. -/
def eligible (hist : List HistItem) (attempted : List String) (q : QueueItem) : Bool :=
  !histSent hist q.phone && !(attempted.contains q.phone)

/-- Lexicographic comparison of character lists by codepoint (the total
order behind ORDER BY f.name). -/
def charListLt : List Char → List Char → Bool
  | _, [] => false
  | [], _ :: _ => true
  | a :: as, b :: bs =>
    if a.toNat < b.toNat then true
    else if b.toNat < a.toNat then false
    else charListLt as bs

/-- String comparison for the ORDER BY f.name sort key. -/
def nameLt (a b : String) : Bool := charListLt a.toList b.toList

/-- One step of the ORDER BY f.name LIMIT 1 minimum search. -/
def pickMin (best : Option QueueItem) (q : QueueItem) : Option QueueItem :=
  match best with
  | none => some q
  | some b => if nameLt q.name b.name then some q else best

/-- The selection query: SELECT ... WHERE eligible ORDER BY f.name LIMIT 1.
Among rows with equal names (the SQL order leaves their relative order
unspecified) the earliest row of the list is taken. -/
def selectNext (queue : List QueueItem) (hist : List HistItem)
    (attempted : List String) : Option QueueItem :=
  (queue.filter (eligible hist attempted)).foldl pickMin none

/-- The history upsert of a successful send: INSERT ... ON CONFLICT (phone)
DO UPDATE SET mensagem_enviada = true, updated_at = NOW(). -/
def upsertHist (hist : List HistItem) (name phone : String) (niche : Option String)
    (today : Nat) : List HistItem :=
  if hist.any (fun h => h.phone == phone) then
    hist.map (fun h => if h.phone == phone then { h with sent := true, updatedDay := today } else h)
  else
    hist ++ [{ name := name, phone := phone, niche := niche, sent := true, updatedDay := today }]

/-- The queue delete of the commit: DELETE FROM slug WHERE phone = $1. -/
def deleteQueue (queue : List QueueItem) (phone : String) : List QueueItem :=
  queue.filter (fun q => !(q.phone == phone))

/-- Count of history rows with sent = true and updated_at on the current
calendar date (the daily-quota SELECT COUNT). -/
def sentToday (hist : List HistItem) (today : Nat) : Nat :=
  (hist.filter (fun h => h.sent && h.updatedDay == today)).length

/-- The resolved daily limit: Number(settings.daily_limit) > 0 ? floor :
DAILY_MESSAGE_COUNT (= 30). -/
def resolvedDailyLimit (s : Settings) : Nat :=
  if 0 < s.dailyLimitRaw then s.dailyLimitRaw.toNat else 30

/-- The value returned to the caller: { processed, status }. -/
structure RunResult where
  processed : Nat
  status : String
deriving DecidableEq, Repr

/-- The mutable loop state of one run: the two tables, the attemptedPhones
set, the processed counter, the item events published so far and the
manualStop flag. -/
structure LoopSt where
  queue : List QueueItem
  hist : List HistItem
  attempted : List String
  processed : Nat
  events : List Event
  manualStop : Bool
deriving Repr

/-- Outcome of one loop iteration: continue with the next index, break out
of the loop, or an escaped selection exception. -/
inductive StepOut where
  | cont (st : LoopSt)
  | brk (st : LoopSt)
  | crash (st : LoopSt)
deriving Repr

/-- One iteration of the send loop (the body of
for (let i = 0; i < messageLimit; i++) of runLoopForClient), in source
order: loop-top stop check, mid-run quota check, abortable sleep (skipped
when the delay is 0), post-sleep stop check, contact selection (whose
escaping exception is the select crash point), attemptedPhones.add,
dispatch (or skipped when ia_auto is off), post-dispatch stop check,
the transactional commit (skipped on manualStop, rolled back on a
transaction failure), and the item event.  When control reaches the
dispatch section the function-scoped manualStop of the source is false
(every earlier setter breaks at the next checkpoint), so the
if (!manualStop) guard around the dispatcher call is embedded by the
checkpoint hypotheses of this path.  This function is the tail of the loop
body from attemptedPhones.add(phone) onward: dispatch (or skipped), the
post-dispatch stop check, the transactional commit and the item event. -/
def dispatchCommit (env : Env) (useIA : Bool) (i : Nat) (st : LoopSt) (c : QueueItem) :
    StepOut :=
  let attempted := c.phone :: st.attempted
  let status := if useIA then (if env.dispatchOk i then "success" else "error") else "skipped"
  let shouldMark := useIA && env.dispatchOk i
  let manualStop := stopAt env (checkPostDispatch i)
  let st1 :=
    if manualStop then { st with attempted := attempted }
    else
      match env.txnFail i with
      | some .early => { st with attempted := attempted }
      | some .late =>
        { st with attempted := attempted,
                  processed := st.processed + (if shouldMark then 1 else 0) }
      | none =>
        { queue := deleteQueue st.queue c.phone,
          hist := if shouldMark then upsertHist st.hist c.name c.phone c.niche env.today
                  else st.hist,
          attempted := attempted,
          processed := st.processed + (if shouldMark then 1 else 0),
          events := st.events,
          manualStop := st.manualStop }
  let evt := Event.item c.name c.phone (shouldMark && !manualStop)
    (if manualStop then "stopped" else status)
  let st2 := { st1 with events := st1.events ++ [evt], manualStop := manualStop }
  if manualStop then .brk st2 else .cont st2

/-- One iteration of the send loop, up to the contact selection: loop-top
stop check, mid-run quota check, abortable sleep (skipped when the delay is
0), post-sleep stop check, contact selection (whose escaping exception is
the select crash point), then dispatchCommit on the selected contact. -/
def runStep (env : Env) (useIA : Bool) (delays : List Int) (remainingToday : Nat)
    (i : Nat) (st : LoopSt) : StepOut :=
  if stopAt env (checkTop i) then .brk { st with manualStop := true }
  else if remainingToday ≤ i then .brk st
  else if 0 < delays.getD i 0 && stopAt env (checkSleep i) then .brk { st with manualStop := true }
  else if stopAt env (checkPostSleep i) then .brk { st with manualStop := true }
  else if env.crashAt = some (.select i) then .crash st
  else
    match selectNext st.queue st.hist st.attempted with
    | none => .brk st
    | some c => dispatchCommit env useIA i st c

/-- The send loop from index i with the given number of remaining
iterations (messageLimit - i).  Returns the final loop state and whether a
selection exception escaped. -/
def runLoop (env : Env) (useIA : Bool) (delays : List Int) (remainingToday : Nat) :
    Nat → Nat → LoopSt → LoopSt × Bool
  | _, 0, st => (st, false)
  | i, fuel + 1, st =>
    match runStep env useIA delays remainingToday i st with
    | .cont st1 => runLoop env useIA delays remainingToday (i + 1) fuel st1
    | .brk st1 => (st1, false)
    | .crash st1 => (st1, true)

/-- Result of the try block of runLoopForClient: whether an exception
escaped to the top-level catch, the return value (meaningful when no
exception escaped), the state after the blocks side effects, and the
events published, in order. -/
structure TryOut where
  crashed : Bool
  result : RunResult
  sys : Sys
  events : List Event
deriving Repr

/-- The tail of the try block after the send loop: persist the final
loop_status = idle (whose failure is the finalIdle crash point, and which
is skipped when the loop itself crashed), then the end event (with reason
manual_stop after a stop), and the return value.  The table state of the
final loop state is committed either way. -/
def runLoopFinish (env : Env) (s : Sys) (events : List Event) (stF : LoopSt)
    (crashed : Bool) : TryOut :=
  let events2 := events ++ stF.events
  let s2 := { s with queue := stF.queue, hist := stF.hist }
  if crashed then
    { crashed := true, result := ⟨0, ""⟩, sys := s2, events := events2 }
  else if env.crashAt = some .finalIdle then
    { crashed := true, result := ⟨0, ""⟩, sys := s2, events := events2 }
  else
    { crashed := false,
      result := ⟨stF.processed, if stF.manualStop then "stopped" else "ok"⟩,
      sys := { s2 with loopStatus := "idle" },
      events := events2 ++
        [Event.ended stF.processed (if stF.manualStop then some "manual_stop" else none)] }

/-- The scheduling-and-loop phase of the try block: generate the schedule
delays, messageLimit = min(batchSize, delays.length), publish the
informational schedule event (planned = the cumulative sums of the first
min(messageLimit, remainingToday) delays; suppressed when a stop is already
pending), run the send loop and finish. -/
def runLoopPhase (env : Env) (s : Sys) (events : List Event) (dailyLimit : Nat)
    (useIA manualStop0 : Bool) (remainingToday : Nat) : TryOut :=
  let delays := generateScheduleDelays env.rand env.fuel dailyLimit
    env.nowSec env.startSec env.endSec
  let messageLimit := min env.batchSize delays.length
  let planCount := min messageLimit remainingToday
  let events2 := events ++
    (if !manualStop0 then
      [Event.schedule (cumsum (delays.take planCount)) remainingToday dailyLimit]
     else [])
  let st0 : LoopSt :=
    { queue := s.queue, hist := s.hist, attempted := [], processed := 0,
      events := [], manualStop := manualStop0 }
  let res := runLoop env useIA delays remainingToday 0 messageLimit st0
  runLoopFinish env s events2 res.1 res.2

/-- The quota phase of the try block: getClientSettings resolution of
dailyLimit and useIA, the best-effort sent-today count, the pre-loop stop
check, and the daily-quota fast exit (end event with reason daily_quota,
then the loop_status = idle update — whose failure is the quotaIdle crash
point — and return quota_reached); otherwise proceed to the loop phase. -/
def runQuotaPhase (env : Env) (s : Sys) (events : List Event) : TryOut :=
  let dailyLimit := resolvedDailyLimit env.settings
  let useIA := env.iaAutoOverride.getD env.settings.iaAuto
  let alreadySentToday := if env.sentCountFails then 0 else sentToday s.hist env.today
  let manualStop0 := stopAt env checkPre
  let remainingToday := dailyLimit - alreadySentToday
  if !manualStop0 && remainingToday == 0 then
    let events2 := events ++ [Event.ended 0 (some "daily_quota")]
    if env.crashAt = some .quotaIdle then
      { crashed := true, result := ⟨0, ""⟩, sys := s, events := events2 }
    else
      { crashed := false, result := ⟨0, "quota_reached"⟩,
        sys := { s with loopStatus := "idle" }, events := events2 }
  else runLoopPhase env s events dailyLimit useIA manualStop0 remainingToday

/-- The try block of runLoopForClient, in source order: persist
loop_status = running (whose failure is the persistRunning crash point);
the tableExists precondition (persist idle and return ok on a missing
queue table); the best-effort queue count and the start event; then the
quota phase (whose entry, the getClientSettings query, is the getSettings
crash point) and the loop phase. -/
def runTry (env : Env) (s : Sys) : TryOut :=
  if env.crashAt = some .persistRunning then
    { crashed := true, result := ⟨0, ""⟩, sys := s, events := [] }
  else
    let s1 := { s with loopStatus := "running" }
    if !env.tableExists then
      { crashed := false, result := ⟨0, "ok"⟩,
        sys := { s1 with loopStatus := "idle" }, events := [] }
    else
      let total := if env.totalCountFails then 0 else s1.queue.length
      let events := [Event.start total]
      if env.crashAt = some .getSettings then
        { crashed := true, result := ⟨0, ""⟩, sys := s1, events := events }
      else runQuotaPhase env s1 events

/-- The value and effects of one runLoopForClient call: the returned value
(Except because an invalid slug is thrown to the caller, before any side
effect), the final state and the published events. -/
structure RunOut where
  res : Except String RunResult
  sys : Sys
  events : List Event
deriving Repr

/-- runLoopForClient(clientSlug, opts): the invalid-slug throw and the
single-flight guard (both before the try block, so the finally does not run
for them), then the try block, the top-level catch (return
{ processed: 0, status: error }) and the finally block
(stopRequests.delete, runningClients.delete). -/
def runLoopForClient (env : Env) (s : Sys) : RunOut :=
  if !validateSlug env.slug then
    { res := .error "Slug invalido", sys := s, events := [] }
  else if s.running.contains env.slug then
    { res := .ok ⟨0, "already_running"⟩, sys := s, events := [] }
  else
    let s1 := { s with running := env.slug :: s.running }
    let t := runTry env s1
    let r : RunResult := if t.crashed then ⟨0, "error"⟩ else t.result
    let runningF := t.sys.running.filter (fun x => !(x == env.slug))
    let sysF := { t.sys with running := runningF, stopFlag := false }
    { res := .ok r, sys := sysF, events := t.events }

/-- Equality on the result channel of a call is decidable (used to evaluate
the model at concrete inputs). -/
instance {α β : Type} [DecidableEq α] [DecidableEq β] : DecidableEq (Except α β) := fun x y =>
  match x, y with
  | .error a, .error b =>
    if h : a = b then isTrue (by rw [h]) else isFalse (by intro he; cases he; exact h rfl)
  | .ok a, .ok b =>
    if h : a = b then isTrue (by rw [h]) else isFalse (by intro he; cases he; exact h rfl)
  | .error _, .ok _ => isFalse (by intro h; cases h)
  | .ok _, .error _ => isFalse (by intro h; cases h)

/-- The phones of the item events of an event list, in publication order. -/
def itemPhones (evs : List Event) : List String :=
  evs.filterMap (fun e =>
    match e with
    | .item _ ph _ _ => some ph
    | _ => none)

/-- The loop state carried by any of the three step outcomes. -/
def StepOut.state : StepOut → LoopSt
  | .cont st => st
  | .brk st => st
  | .crash st => st

/-- Loop invariant for the queue/history postcondition: every item event
with status success points at a contact no longer in the queue and marked
sent today in history; every item event with status error or skipped points
at a contact no longer in the queue whose history sent flag equals its
value in the initial history hist0; every item-event phone is in
attemptedPhones; and the sent flag of every phone not yet attempted is
unchanged from hist0. -/
def AtomicInv (hist0 : List HistItem) (today : Nat) (st : LoopSt) : Prop :=
  (∀ nm ph ok, Event.item nm ph ok "success" ∈ st.events →
    (∀ q ∈ st.queue, q.phone ≠ ph) ∧
    ∃ h ∈ st.hist, h.phone = ph ∧ h.sent = true ∧ h.updatedDay = today) ∧
  (∀ nm ph ok stt, stt = "error" ∨ stt = "skipped" →
    Event.item nm ph ok stt ∈ st.events →
    (∀ q ∈ st.queue, q.phone ≠ ph) ∧ histSent st.hist ph = histSent hist0 ph) ∧
  (∀ nm ph ok stt, Event.item nm ph ok stt ∈ st.events → ph ∈ st.attempted) ∧
  (∀ ph, ph ∉ st.attempted → histSent st.hist ph = histSent hist0 ph)

/-- A concrete environment for witnesses and counterexamples: a valid slug,
queue table present, dispatcher enabled with a limit of 30, a 3-second
window starting now, a deterministic random stream, no failures, no stop
request. -/
def envBase : Env :=
  { slug := "cliente_a", iaAutoOverride := none, batchSize := 5, tableExists := true,
    settings := { iaAuto := true, dailyLimitRaw := 30 }, today := 7,
    nowSec := 0, startSec := 0, endSec := 3, rand := fun k => k, fuel := 10,
    totalCountFails := false, sentCountFails := false, stopTime := none,
    dispatchOk := fun _ => true, txnFail := fun _ => none, crashAt := none }

/-- A concrete initial state for witnesses and counterexamples: two queued
contacts, empty history, idle, no run active. -/
def sysBase : Sys :=
  { queue := [{ name := "bob", phone := "5511999000001", niche := none },
              { name := "alice", phone := "5511999000002", niche := none }],
    hist := [], loopStatus := "idle", running := [], stopFlag := false }

/-! ## Theorems: schedule generator -/

theorem sampleOffsets_nodup (rand : Nat → Nat) (span target : Nat) :
    ∀ (fuel : Nat) (acc : List Nat), acc.Nodup → (sampleOffsets rand span target fuel acc).Nodup := by
  intro fuel
  induction fuel with
  | zero => intro acc h; simpa [sampleOffsets] using h
  | succ n ih =>
    intro acc h
    simp only [sampleOffsets]
    split
    · exact h
    · apply ih
      split
      · exact h
      · exact List.nodup_cons.mpr ⟨by assumption, h⟩

theorem sampleOffsets_le (rand : Nat → Nat) (span target : Nat) :
    ∀ (fuel : Nat) (acc : List Nat), (∀ x ∈ acc, x ≤ span) →
      ∀ x ∈ sampleOffsets rand span target fuel acc, x ≤ span := by
  intro fuel
  induction fuel with
  | zero => intro acc h; simpa [sampleOffsets] using h
  | succ n ih =>
    intro acc h
    simp only [sampleOffsets]
    split
    · exact h
    · apply ih
      intro x hx
      split at hx
      · exact h x hx
      · rcases List.mem_cons.mp hx with hx | hx
        · subst hx
          exact Nat.lt_succ_iff.mp (Nat.mod_lt _ (Nat.succ_pos span))
        · exact h x hx

theorem deltasFrom_length : ∀ (rest : List Nat) (o : Int), (deltasFrom o rest).length = rest.length := by
  intro rest
  induction rest with
  | nil => intro o; rfl
  | cons o2 rs ih => intro o; simp [deltasFrom, ih]

theorem delaysOfSorted_length (lead : Int) (l : List Nat) :
    (delaysOfSorted lead l).length = l.length := by
  cases l with
  | nil => rfl
  | cons o rest => simp [delaysOfSorted, deltasFrom_length]

theorem deltasFrom_nonneg :
    ∀ (rest : List Nat) (o : Nat), List.Chain' (· ≤ ·) (o :: rest) →
      ∀ d ∈ deltasFrom (o : Int) rest, 0 ≤ d := by
  intro rest
  induction rest with
  | nil => intro o _ d hd; simp [deltasFrom] at hd
  | cons o2 rs ih =>
    intro o hch d hd
    rcases List.chain'_cons.mp hch with ⟨h12, hch2⟩
    rcases List.mem_cons.mp hd with hd | hd
    · subst hd
      simpa using (Int.ofNat_le.mpr h12 : (o : Int) ≤ (o2 : Int))
    · exact ih o2 hch2 d hd

theorem delaysOfSorted_nonneg (lead : Int) (l : List Nat) (hlead : 0 ≤ lead)
    (hch : List.Chain' (· ≤ ·) l) : ∀ d ∈ delaysOfSorted lead l, 0 ≤ d := by
  cases l with
  | nil => intro d hd; simp [delaysOfSorted] at hd
  | cons o rest =>
    intro d hd
    rcases List.mem_cons.mp hd with hd | hd
    · subst hd
      have : (0 : Int) ≤ (o : Int) := Int.ofNat_nonneg o
      omega
    · exact deltasFrom_nonneg rest o hch d hd

theorem cumsumFrom_deltasFrom :
    ∀ (rest : List Nat) (o : Nat) (base : Int),
      cumsumFrom (base + (o : Int)) (deltasFrom (o : Int) rest)
        = rest.map (fun x : Nat => base + (x : Int)) := by
  intro rest
  induction rest with
  | nil => intro o base; rfl
  | cons o2 rs ih =>
    intro o base
    show (base + o + ((o2 : Int) - o)) ::
        cumsumFrom (base + o + ((o2 : Int) - o)) (deltasFrom (o2 : Int) rs) = _
    have h : base + (o : Int) + ((o2 : Int) - (o : Int)) = base + (o2 : Int) := by ring
    rw [h, ih o2 base]
    rfl

theorem cumsum_delaysOfSorted (lead : Int) (l : List Nat) :
    cumsum (delaysOfSorted lead l) = l.map (fun x : Nat => lead + (x : Int)) := by
  cases l with
  | nil => rfl
  | cons o rest =>
    show (0 + (lead + (o : Int))) :: cumsumFrom (0 + (lead + (o : Int))) (deltasFrom (o : Int) rest) = _
    have h : (0 : Int) + (lead + (o : Int)) = lead + (o : Int) := by ring
    rw [h, cumsumFrom_deltasFrom rest o lead]
    rfl

/-- C6: schedule generator postcondition.  If the window is already closed
(end at or before max(now, start)) the result is empty; otherwise (under
the hypothesis that the rejection-sampling fuel sufficed, i.e. the sampled
offset list reached its target size min(count, span)) the generator returns
exactly min(count, span) nonnegative delays whose cumulative sums are
pairwise strictly increasing (hence the reconstructed absolute offsets are
pairwise distinct), and every dispatch instant now + cumulative-sum lies in
[effectiveStart, end].  In the closed-window case span = 0, so the length
and window clauses hold there as well. -/
theorem schedule_delays_spec (rand : Nat → Nat) (fuel count nowSec startSec endSec : Nat)
    (hlen : (sampleOffsets rand (endSec - max nowSec startSec)
        (min count (endSec - max nowSec startSec)) fuel []).length
        = min count (endSec - max nowSec startSec)) :
    (endSec ≤ max nowSec startSec →
      generateScheduleDelays rand fuel count nowSec startSec endSec = []) ∧
    (generateScheduleDelays rand fuel count nowSec startSec endSec).length
        = min count (endSec - max nowSec startSec) ∧
    (∀ d ∈ generateScheduleDelays rand fuel count nowSec startSec endSec, 0 ≤ d) ∧
    (cumsum (generateScheduleDelays rand fuel count nowSec startSec endSec)).Pairwise (· < ·) ∧
    (∀ c ∈ cumsum (generateScheduleDelays rand fuel count nowSec startSec endSec),
      ((max nowSec startSec : Int) ≤ (nowSec : Int) + c ∧ (nowSec : Int) + c ≤ (endSec : Int))) := by
  by_cases hwin : endSec ≤ max nowSec startSec
  · have hspan : endSec - max nowSec startSec = 0 := Nat.sub_eq_zero_of_le hwin
    have hgen : generateScheduleDelays rand fuel count nowSec startSec endSec = [] := by
      simp [generateScheduleDelays, hwin]
    refine ⟨fun _ => hgen, ?_, ?_, ?_, ?_⟩
    · simp [hgen, hspan]
    · simp [hgen]
    · simp [hgen, cumsum, cumsumFrom]
    · simp [hgen, cumsum, cumsumFrom]
  · set span := endSec - max nowSec startSec with hspan
    set msgCount := min count span with hmsg
    set sample := sampleOffsets rand span msgCount fuel [] with hsample
    set sorted := sample.insertionSort (· ≤ ·) with hsorted
    have hgen : generateScheduleDelays rand fuel count nowSec startSec endSec
        = delaysOfSorted ((max nowSec startSec : Int) - (nowSec : Int)) sorted := by
      simp [generateScheduleDelays, hwin, hsorted, hsample, hmsg, hspan]
    have hperm : List.Perm sorted sample := List.perm_insertionSort _ sample
    have hsortedlen : sorted.length = msgCount := by
      rw [hperm.length_eq]; exact hlen
    have hsrt : List.Sorted (· ≤ ·) sorted := List.sorted_insertionSort _ sample
    have hnd : sorted.Nodup :=
      hperm.nodup_iff.mpr (sampleOffsets_nodup rand span msgCount fuel [] List.nodup_nil)
    have hle : ∀ x ∈ sorted, x ≤ span := by
      intro x hx
      exact sampleOffsets_le rand span msgCount fuel [] (by simp) x (hperm.mem_iff.mp hx)
    have hlead : (0 : Int) ≤ (max nowSec startSec : Int) - (nowSec : Int) := by
      have : nowSec ≤ max nowSec startSec := Nat.le_max_left _ _
      omega
    have hcs : cumsum (generateScheduleDelays rand fuel count nowSec startSec endSec)
        = sorted.map (fun x : Nat => ((max nowSec startSec : Int) - (nowSec : Int)) + (x : Int)) := by
      rw [hgen, cumsum_delaysOfSorted]
    refine ⟨fun h => absurd h hwin, ?_, ?_, ?_, ?_⟩
    · rw [hgen, delaysOfSorted_length, hsortedlen]
    · intro d hd
      rw [hgen] at hd
      exact delaysOfSorted_nonneg _ sorted hlead
        (List.chain'_iff_pairwise.mpr hsrt) d hd
    · rw [hcs]
      have hlt : sorted.Pairwise (· < ·) :=
        (hsrt.and hnd).imp (fun h => lt_of_le_of_ne h.1 h.2)
      exact hlt.map _ (fun a b h =>
        add_lt_add_left (by exact_mod_cast h) ((max nowSec startSec : Int) - (nowSec : Int)))
    · intro c hc
      rw [hcs] at hc
      rcases List.mem_map.mp hc with ⟨x, hx, hxc⟩
      have hx1 : (x : Int) ≤ (span : Int) := by exact_mod_cast hle x hx
      have hx0 : (0 : Int) ≤ (x : Int) := Int.ofNat_nonneg x
      have hMe : max nowSec startSec + span = endSec :=
        Nat.add_sub_cancel' (Nat.le_of_lt (Nat.lt_of_not_le hwin))
      have hMe' : (max nowSec startSec : Int) + (span : Int) = (endSec : Int) := by
        exact_mod_cast hMe
      rw [← hxc]
      constructor
      · omega
      · omega

/-- Witness for C6 at a concrete input: count 3, now 0, window 5..10, a
concrete random stream and fuel 10; the sampling hypothesis holds by
computation. -/
theorem schedule_delays_spec_witness :
    ((sampleOffsets (fun k => k) (10 - max 0 5) (min 3 (10 - max 0 5)) 10 []).length
        = min 3 (10 - max 0 5)) ∧
    ((10 ≤ max 0 5 →
      generateScheduleDelays (fun k => k) 10 3 0 5 10 = []) ∧
    (generateScheduleDelays (fun k => k) 10 3 0 5 10).length = min 3 (10 - max 0 5) ∧
    (∀ d ∈ generateScheduleDelays (fun k => k) 10 3 0 5 10, 0 ≤ d) ∧
    (cumsum (generateScheduleDelays (fun k => k) 10 3 0 5 10)).Pairwise (· < ·) ∧
    (∀ c ∈ cumsum (generateScheduleDelays (fun k => k) 10 3 0 5 10),
      ((max 0 5 : Int) ≤ (0 : Int) + c ∧ (0 : Int) + c ≤ (10 : Int)))) :=
  ⟨by decide, schedule_delays_spec (fun k => k) 10 3 0 5 10 (by decide)⟩

/-! ## Theorems: abortable sleep -/

theorem sleepLoop_no_stop (ms : Nat) : ∀ e, sleepLoop (fun _ => false) ms e = ("ok", ms) := by
  intro e
  generalize hr : ms - e = r
  induction r using Nat.strong_induction_on generalizing e with
  | _ r ih =>
    rw [sleepLoop]
    split
    · next he =>
      exact ih (ms - (e + 250)) (by omega) (e + 250) rfl
    · rfl

theorem sleepLoop_rt_le (stops : Nat → Bool) (ms : Nat) :
    ∀ e, (sleepLoop stops ms e).2 ≤ ms := by
  intro e
  generalize hr : ms - e = r
  induction r using Nat.strong_induction_on generalizing e with
  | _ r ih =>
    rw [sleepLoop]
    split
    · next he =>
      split
      · simpa using Nat.le_of_lt he
      · exact ih (ms - (e + 250)) (by omega) (e + 250) rfl
    · simp

theorem sleepLoop_ok_full (stops : Nat → Bool) (ms : Nat) :
    ∀ e, (sleepLoop stops ms e).1 = "ok" → (sleepLoop stops ms e).2 = ms := by
  intro e
  generalize hr : ms - e = r
  induction r using Nat.strong_induction_on generalizing e with
  | _ r ih =>
    rw [sleepLoop]
    split
    · next he =>
      split
      · intro h; simp at h
      · exact ih (ms - (e + 250)) (by omega) (e + 250) rfl
    · intro _; rfl

theorem sleepLoop_aborted_after (t ms : Nat) :
    ∀ e, (sleepLoop (fun x => decide (t ≤ x)) ms e).1 = "aborted" →
      t ≤ (sleepLoop (fun x => decide (t ≤ x)) ms e).2 ∧
      (sleepLoop (fun x => decide (t ≤ x)) ms e).2 < ms := by
  intro e
  generalize hr : ms - e = r
  induction r using Nat.strong_induction_on generalizing e with
  | _ r ih =>
    rw [sleepLoop]
    split
    · next he =>
      split
      · next hs =>
        intro _
        exact ⟨by simpa using hs, he⟩
      · exact ih (ms - (e + 250)) (by omega) (e + 250) rfl
    · intro h; simp at h

theorem sleepLoop_within_interval (t ms : Nat) :
    ∀ e, e ≤ t + 250 → (sleepLoop (fun x => decide (t ≤ x)) ms e).2 ≤ t + 250 := by
  intro e
  generalize hr : ms - e = r
  induction r using Nat.strong_induction_on generalizing e with
  | _ r ih =>
    intro hbound
    rw [sleepLoop]
    split
    · next he =>
      split
      · next hs => simpa using hbound
      · next hs =>
        have ht : e < t := by simpa using hs
        exact ih (ms - (e + 250)) (by omega) (e + 250) rfl (by omega)
    · next he =>
      simp only
      omega

/-- C7 counterexample: the claim says a flag set during the sleep always
makes sleepAbortable return "aborted" within one polling interval.  For a
300 ms sleep with the stop flag set at 260 ms — strictly during the sleep,
after the last poll at 250 ms — the function returns "ok" after the full
duration, not "aborted". -/
theorem sleepAbortable_claim_cex :
    260 < 300 ∧
    sleepAbortable (fun x => decide (260 ≤ x)) 300 = ("ok", 300) ∧
    ("ok" : String) ≠ "aborted" := by
  refine ⟨by norm_num, ?_, by decide⟩
  rw [sleepAbortable]
  rw [sleepLoop]; norm_num
  rw [sleepLoop]; norm_num
  rw [sleepLoop]; norm_num

/-- C7 amended: the abortable sleep never sleeps past the requested
duration, terminates within one polling interval (250 ms) of the moment the
stop flag is set, returns "ok" after exactly the full duration when the
flag is never set during it, and when it returns "aborted" it does so at a
poll at or after the flag was set, strictly before the full duration; a
flag set after the final poll yields "ok" at the scheduled end (still
within 250 ms of the flag). -/
theorem sleepAbortable_responsive (ms t : Nat) :
    sleepAbortable (fun _ => false) ms = ("ok", ms) ∧
    (sleepAbortable (fun x => decide (t ≤ x)) ms).2 ≤ ms ∧
    (sleepAbortable (fun x => decide (t ≤ x)) ms).2 ≤ t + 250 ∧
    ((sleepAbortable (fun x => decide (t ≤ x)) ms).1 = "aborted" →
      t ≤ (sleepAbortable (fun x => decide (t ≤ x)) ms).2 ∧
      (sleepAbortable (fun x => decide (t ≤ x)) ms).2 < ms) ∧
    ((sleepAbortable (fun x => decide (t ≤ x)) ms).1 = "ok" →
      (sleepAbortable (fun x => decide (t ≤ x)) ms).2 = ms) :=
  ⟨sleepLoop_no_stop ms 0,
   sleepLoop_rt_le _ ms 0,
   sleepLoop_within_interval t ms 0 (by omega),
   sleepLoop_aborted_after t ms 0,
   sleepLoop_ok_full _ ms 0⟩

/-- Witness for C7 amended at a concrete duration and stop moment. -/
theorem sleepAbortable_responsive_witness :
    sleepAbortable (fun _ => false) 1000 = ("ok", 1000) ∧
    (sleepAbortable (fun x => decide (100 ≤ x)) 1000).2 ≤ 1000 ∧
    (sleepAbortable (fun x => decide (100 ≤ x)) 1000).2 ≤ 100 + 250 ∧
    ((sleepAbortable (fun x => decide (100 ≤ x)) 1000).1 = "aborted" →
      100 ≤ (sleepAbortable (fun x => decide (100 ≤ x)) 1000).2 ∧
      (sleepAbortable (fun x => decide (100 ≤ x)) 1000).2 < 1000) ∧
    ((sleepAbortable (fun x => decide (100 ≤ x)) 1000).1 = "ok" →
      (sleepAbortable (fun x => decide (100 ≤ x)) 1000).2 = 1000) :=
  sleepAbortable_responsive 1000 100

/-! ## Theorems: progress snapshot and replay -/

theorem snapshotPush_items (st : Snapshot) (e : Event) (h : st.items.length ≤ 200) :
    (snapshotPush st e).items = (st.items ++ [e]).drop (st.items.length + 1 - 200) := by
  simp only [snapshotPush]
  split
  · next hlen =>
    have h200 : st.items.length = 200 := by simp at hlen; omega
    rw [show st.items.length + 1 - 200 = 1 from by omega, List.drop_one]
  · next hlen =>
    have : st.items.length + 1 - 200 = 0 := by simp at hlen; omega
    rw [this, List.drop_zero]

theorem snapshotPush_items_length (st : Snapshot) (e : Event) (h : st.items.length ≤ 200) :
    (snapshotPush st e).items.length ≤ 200 := by
  rw [snapshotPush_items st e h]
  simp only [List.length_drop, List.length_append, List.length_cons, List.length_nil]
  omega

theorem snapshotPush_lastStart (st : Snapshot) (e : Event) :
    (snapshotPush st e).lastStart = st.lastStart := rfl

theorem snapshotPush_lastEnd (st : Snapshot) (e : Event) :
    (snapshotPush st e).lastEnd = st.lastEnd := rfl

theorem foldl_snapshotPush (evs : List Event) :
    ∀ st : Snapshot, st.items.length ≤ 200 →
      (evs.foldl snapshotPush st).items
          = (st.items ++ evs).drop (st.items.length + evs.length - 200) ∧
      (evs.foldl snapshotPush st).lastStart = st.lastStart ∧
      (evs.foldl snapshotPush st).lastEnd = st.lastEnd := by
  induction evs with
  | nil =>
    intro st h
    refine ⟨?_, rfl, rfl⟩
    simp only [List.foldl_nil, List.append_nil, List.length_nil]
    rw [show st.items.length + 0 - 200 = 0 from by omega, List.drop_zero]
  | cons e rest ih =>
    intro st h
    have hlen1 : (snapshotPush st e).items.length ≤ 200 := snapshotPush_items_length st e h
    obtain ⟨hitems, hstart, hend⟩ := ih (snapshotPush st e) hlen1
    have hpush := snapshotPush_items st e h
    refine ⟨?_, ?_, ?_⟩
    · rw [List.foldl_cons, hitems, hpush]
      have hd1 : st.items.length + 1 - 200 ≤ (st.items ++ [e]).length := by
        rw [List.length_append]; simp only [List.length_cons, List.length_nil]; omega
      rw [← List.drop_append_of_le_length hd1, List.drop_drop]
      have hA : st.items ++ [e] ++ rest = st.items ++ e :: rest := by
        rw [List.append_assoc, List.singleton_append]
      rw [hA]
      have hI : st.items.length + 1 - 200
            + (((st.items ++ [e]).drop (st.items.length + 1 - 200)).length + rest.length - 200)
          = st.items.length + (e :: rest).length - 200 := by
        simp only [List.length_drop, List.length_append, List.length_cons, List.length_nil]
        omega
      rw [hI]
    · rw [List.foldl_cons, hstart, snapshotPush_lastStart]
    · rw [List.foldl_cons, hend, snapshotPush_lastEnd]

/-- C8: replay-then-live on subscribe.  After snapshotStart(total) and N
item-event pushes, a subscriber receives the start event, then exactly the
last min(N, 200) pushed events in publication order, then — when the run
has ended with snapshotEnd — the end event, and then every live event, in
order, with nothing dropped or duplicated between replay and live
delivery.  Both the mid-run snapshot and the ended snapshot are covered,
and the replayed segment has length min(N, 200). -/
theorem progress_replay_spec (total : Nat) (evs live : List Event)
    (processed : Nat) (reason : Option String) :
    subscriberStream (some (evs.foldl snapshotPush (snapshotStart total))) live
        = Event.start total :: (evs.drop (evs.length - 200) ++ live) ∧
    subscriberStream
        (some (snapshotEnd (evs.foldl snapshotPush (snapshotStart total)) processed reason)) live
        = Event.start total ::
            (evs.drop (evs.length - 200) ++ ([Event.ended processed reason] ++ live)) ∧
    (evs.drop (evs.length - 200)).length = min evs.length 200 := by
  obtain ⟨hitems, hstart, hend⟩ :=
    foldl_snapshotPush evs (snapshotStart total) (by simp [snapshotStart])
  have hitems2 : (evs.foldl snapshotPush (snapshotStart total)).items
      = evs.drop (evs.length - 200) := by
    rw [hitems]
    simp [snapshotStart]
  refine ⟨?_, ?_, ?_⟩
  · rw [subscriberStream, replay, hitems2, hstart, hend]
    simp [snapshotStart]
  · rw [subscriberStream, replay]
    have h1 : (snapshotEnd (evs.foldl snapshotPush (snapshotStart total)) processed reason).items
        = evs.drop (evs.length - 200) := by
      rw [snapshotEnd] at *
      simpa using hitems2
    have h2 : (snapshotEnd (evs.foldl snapshotPush (snapshotStart total)) processed reason).lastStart
        = some (Event.start total) := by
      rw [snapshotEnd] at *
      simpa [snapshotStart] using hstart
    rw [h1, h2, snapshotEnd]
    simp
  · rw [List.length_drop]
    omega

/-! ## Theorems: run coordinator -/

theorem contains_filter_ne (l : List String) (a : String) :
    (l.filter (fun x => !(x == a))).contains a = false := by
  simp

theorem foldl_pickMin_mem :
    ∀ (l : List QueueItem) (b : Option QueueItem) (c : QueueItem),
      l.foldl pickMin b = some c → b = some c ∨ c ∈ l := by
  intro l
  induction l with
  | nil => intro b c h; exact Or.inl h
  | cons q rest ih =>
    intro b c h
    rcases ih (pickMin b q) c h with h1 | h1
    · cases b with
      | none =>
        simp only [pickMin, Option.some.injEq] at h1
        exact Or.inr (by simp [h1])
      | some b0 =>
        by_cases hq : nameLt q.name b0.name = true
        · simp [pickMin, hq] at h1
          exact Or.inr (by simp [h1])
        · simp [pickMin, hq] at h1
          exact Or.inl (by simp [h1])
    · exact Or.inr (List.mem_cons_of_mem q h1)

theorem selectNext_mem (queue : List QueueItem) (hist : List HistItem)
    (attempted : List String) (c : QueueItem)
    (h : selectNext queue hist attempted = some c) :
    c ∈ queue ∧ histSent hist c.phone = false ∧ c.phone ∉ attempted := by
  unfold selectNext at h
  rcases foldl_pickMin_mem _ none c h with h1 | h1
  · cases h1
  · obtain ⟨hmem, helig⟩ := List.mem_filter.mp h1
    unfold eligible at helig
    simp only [Bool.and_eq_true, Bool.not_eq_true'] at helig
    refine ⟨hmem, helig.1, ?_⟩
    have := helig.2
    simpa using this

theorem histSent_map_ne (hist : List HistItem) (p' : String) (d : Nat) (p : String)
    (hne : p ≠ p') :
    ((hist.map (fun h => if h.phone == p' then { h with sent := true, updatedDay := d } else h)).any
        (fun h => h.phone == p && h.sent))
      = hist.any (fun h => h.phone == p && h.sent) := by
  induction hist with
  | nil => rfl
  | cons h hs ih =>
    simp only [List.map_cons, List.any_cons, ih]
    congr 1
    by_cases hp : h.phone = p'
    · have h2 : (p' == p) = false := beq_eq_false_iff_ne.mpr (Ne.symm hne)
      simp [hp, h2]
    · simp [hp]

theorem histSent_upsert_ne (hist : List HistItem) (nm p' : String) (ni : Option String)
    (d : Nat) (p : String) (hne : p ≠ p') :
    histSent (upsertHist hist nm p' ni d) p = histSent hist p := by
  unfold upsertHist
  split
  · exact histSent_map_ne hist p' d p hne
  · unfold histSent
    rw [List.any_append]
    have h2 : (p' == p) = false := beq_eq_false_iff_ne.mpr (Ne.symm hne)
    simp [h2]

theorem upsertHist_mem_self (hist : List HistItem) (nm p : String) (ni : Option String)
    (d : Nat) :
    ∃ h ∈ upsertHist hist nm p ni d, h.phone = p ∧ h.sent = true ∧ h.updatedDay = d := by
  unfold upsertHist
  split
  · next hany =>
    rw [List.any_eq_true] at hany
    obtain ⟨h0, hmem, hph⟩ := hany
    refine ⟨{ h0 with sent := true, updatedDay := d }, ?_, ?_, rfl, rfl⟩
    · exact List.mem_map.mpr ⟨h0, hmem, by simp [hph]⟩
    · simpa using hph
  · exact ⟨_, List.mem_append_right _ (List.mem_singleton.mpr rfl), rfl, rfl, rfl⟩

theorem upsertHist_mem_of_ne (hist : List HistItem) (nm p' : String) (ni : Option String)
    (d : Nat) (h : HistItem) (hmem : h ∈ hist) (hne : h.phone ≠ p') :
    h ∈ upsertHist hist nm p' ni d := by
  unfold upsertHist
  split
  · exact List.mem_map.mpr ⟨h, hmem, by simp [hne]⟩
  · exact List.mem_append_left _ hmem

theorem deleteQueue_mem (queue : List QueueItem) (p : String) (q : QueueItem) :
    q ∈ deleteQueue queue p ↔ q ∈ queue ∧ q.phone ≠ p := by
  unfold deleteQueue
  rw [List.mem_filter]
  simp

/-- C4: single-flight per tenant.  When a run for the slug is already
active (the slug is in the process-local running set), a further call
returns immediately with processed 0 and status already_running, leaving
the whole state untouched and publishing no events. -/
theorem single_flight_already_running (env : Env) (s : Sys)
    (hvalid : validateSlug env.slug = true)
    (hrun : s.running.contains env.slug = true) :
    runLoopForClient env s
      = { res := .ok ⟨0, "already_running"⟩, sys := s, events := [] } := by
  unfold runLoopForClient
  rw [hvalid, hrun]
  simp

/-- Witness for C4: a second call for cliente_a while cliente_a is in the
running set. -/
theorem single_flight_already_running_witness :
    validateSlug envBase.slug = true ∧
    ({ sysBase with running := ["cliente_a"] } : Sys).running.contains envBase.slug = true ∧
    runLoopForClient envBase { sysBase with running := ["cliente_a"] }
      = { res := .ok ⟨0, "already_running"⟩,
          sys := { sysBase with running := ["cliente_a"] }, events := [] } :=
  ⟨by decide, by decide,
    single_flight_already_running envBase { sysBase with running := ["cliente_a"] }
      (by decide) (by decide)⟩

/-- C9: cleanup on every exit path.  Whenever a call actually starts a run
(valid slug, no run already active for it), the state after the call has
the stop flag cleared and the slug no longer in the single-flight running
set — whatever the environment did (normal end, quota exit, manual stop,
missing table, or any escaped exception). -/
theorem run_cleanup (env : Env) (s : Sys)
    (hvalid : validateSlug env.slug = true)
    (hrun : s.running.contains env.slug = false) :
    (runLoopForClient env s).sys.stopFlag = false ∧
    (runLoopForClient env s).sys.running.contains env.slug = false := by
  unfold runLoopForClient
  rw [hvalid, hrun]
  simp [contains_filter_ne]

/-- Witness for C9: a run with an escaped exception (crash while reading
settings) still clears the stop flag and the running set. -/
theorem run_cleanup_witness :
    validateSlug ({ envBase with crashAt := some .getSettings } : Env).slug = true ∧
    sysBase.running.contains ({ envBase with crashAt := some .getSettings } : Env).slug = false ∧
    ((runLoopForClient { envBase with crashAt := some .getSettings } sysBase).sys.stopFlag = false ∧
      (runLoopForClient { envBase with crashAt := some .getSettings } sysBase).sys.running.contains
          ({ envBase with crashAt := some .getSettings } : Env).slug = false) :=
  ⟨by decide, by decide,
    run_cleanup { envBase with crashAt := some .getSettings } sysBase (by decide) (by decide)⟩

/-- C3 counterexample: the claim says an escaped exception leaves the
persisted loopStatus equal to error.  With the getClientSettings query
throwing, the run returns status error but the persisted loopStatus is
still running (the code never writes the value error anywhere): the claim
is false at this input. -/
theorem run_error_status_cex :
    (runLoopForClient { envBase with crashAt := some .getSettings } sysBase).res
        = .ok ⟨0, "error"⟩ ∧
    (runLoopForClient { envBase with crashAt := some .getSettings } sysBase).sys.loopStatus
        = "running" ∧
    ("running" : String) ≠ "error" := by
  refine ⟨?_, ?_, by decide⟩ <;> decide

/-- C3 amended: when an unexpected exception escapes the coordination
logic (here: the settings fetch throws, after the initial
loopStatus=running write), the call does not propagate the exception but
returns processed 0 with status error, the single-flight lock is released
and the stop flag cleared, and the persisted loopStatus remains running —
the run never writes loopStatus=error, so the failure is visible to the
status surface only as a stale running value (which the read model
self-heals to idle), not as error. -/
theorem run_error_reporting (env : Env) (s : Sys)
    (hvalid : validateSlug env.slug = true)
    (hrun : s.running.contains env.slug = false)
    (htable : env.tableExists = true)
    (hcrash : env.crashAt = some .getSettings) :
    (runLoopForClient env s).res = .ok ⟨0, "error"⟩ ∧
    (runLoopForClient env s).sys.loopStatus = "running" ∧
    (runLoopForClient env s).sys.running.contains env.slug = false ∧
    (runLoopForClient env s).sys.stopFlag = false := by
  unfold runLoopForClient runTry
  rw [hvalid, hrun]
  simp [htable, hcrash, contains_filter_ne]

/-- Witness for C3 amended at the concrete crashing environment. -/
theorem run_error_reporting_witness :
    validateSlug ({ envBase with crashAt := some .getSettings } : Env).slug = true ∧
    sysBase.running.contains ({ envBase with crashAt := some .getSettings } : Env).slug = false ∧
    ({ envBase with crashAt := some .getSettings } : Env).tableExists = true ∧
    ({ envBase with crashAt := some .getSettings } : Env).crashAt = some .getSettings ∧
    ((runLoopForClient { envBase with crashAt := some .getSettings } sysBase).res
        = .ok ⟨0, "error"⟩ ∧
      (runLoopForClient { envBase with crashAt := some .getSettings } sysBase).sys.loopStatus
        = "running" ∧
      (runLoopForClient { envBase with crashAt := some .getSettings } sysBase).sys.running.contains
          ({ envBase with crashAt := some .getSettings } : Env).slug = false ∧
      (runLoopForClient { envBase with crashAt := some .getSettings } sysBase).sys.stopFlag
        = false) :=
  ⟨by decide, by decide, by decide, by decide,
    run_error_reporting { envBase with crashAt := some .getSettings } sysBase
      (by decide) (by decide) (by decide) (by decide)⟩

/-- C2: quota-zero fast exit.  For a valid slug with its queue table
present and no run active, when no stop request is pending, no query fails
and no exception is injected, and the count of history rows sent today
already reaches the resolved daily limit, the run ends before attempting
any contact: it returns quota_reached with processed 0, persists
loopStatus=idle, leaves queue and history untouched, and publishes exactly
the start event and an end event with reason daily_quota (no item
events). -/
theorem quota_fast_exit (env : Env) (s : Sys)
    (hvalid : validateSlug env.slug = true)
    (hrun : s.running.contains env.slug = false)
    (htable : env.tableExists = true)
    (hcrash : env.crashAt = none)
    (hcnt : env.sentCountFails = false)
    (htot : env.totalCountFails = false)
    (hstop : stopAt env checkPre = false)
    (hquota : resolvedDailyLimit env.settings ≤ sentToday s.hist env.today) :
    (runLoopForClient env s).res = .ok ⟨0, "quota_reached"⟩ ∧
    (runLoopForClient env s).sys.loopStatus = "idle" ∧
    (runLoopForClient env s).sys.queue = s.queue ∧
    (runLoopForClient env s).sys.hist = s.hist ∧
    (runLoopForClient env s).events
      = [Event.start s.queue.length, Event.ended 0 (some "daily_quota")] := by
  unfold runLoopForClient runTry runQuotaPhase
  rw [hvalid, hrun]
  have h0 : resolvedDailyLimit env.settings - sentToday s.hist env.today = 0 :=
    Nat.sub_eq_zero_of_le hquota
  simp [htable, hcrash, hcnt, htot, hstop, h0]

/-- Witness for C2: daily limit 1, one history row sent today. -/
theorem quota_fast_exit_witness :
    validateSlug ({ envBase with settings := ⟨true, 1⟩ } : Env).slug = true ∧
    ({ sysBase with hist := [⟨"x", "5511999000009", none, true, 7⟩] } : Sys).running.contains
        ({ envBase with settings := ⟨true, 1⟩ } : Env).slug = false ∧
    resolvedDailyLimit ({ envBase with settings := ⟨true, 1⟩ } : Env).settings
        ≤ sentToday ({ sysBase with hist := [⟨"x", "5511999000009", none, true, 7⟩] } : Sys).hist
          ({ envBase with settings := ⟨true, 1⟩ } : Env).today ∧
    ((runLoopForClient { envBase with settings := ⟨true, 1⟩ }
          { sysBase with hist := [⟨"x", "5511999000009", none, true, 7⟩] }).res
        = .ok ⟨0, "quota_reached"⟩ ∧
      (runLoopForClient { envBase with settings := ⟨true, 1⟩ }
          { sysBase with hist := [⟨"x", "5511999000009", none, true, 7⟩] }).sys.loopStatus
        = "idle" ∧
      (runLoopForClient { envBase with settings := ⟨true, 1⟩ }
          { sysBase with hist := [⟨"x", "5511999000009", none, true, 7⟩] }).sys.queue
        = ({ sysBase with hist := [⟨"x", "5511999000009", none, true, 7⟩] } : Sys).queue ∧
      (runLoopForClient { envBase with settings := ⟨true, 1⟩ }
          { sysBase with hist := [⟨"x", "5511999000009", none, true, 7⟩] }).sys.hist
        = ({ sysBase with hist := [⟨"x", "5511999000009", none, true, 7⟩] } : Sys).hist ∧
      (runLoopForClient { envBase with settings := ⟨true, 1⟩ }
          { sysBase with hist := [⟨"x", "5511999000009", none, true, 7⟩] }).events
        = [Event.start
            ({ sysBase with hist := [⟨"x", "5511999000009", none, true, 7⟩] } : Sys).queue.length,
           Event.ended 0 (some "daily_quota")]) :=
  ⟨by decide, by decide, by decide,
    quota_fast_exit { envBase with settings := ⟨true, 1⟩ }
      { sysBase with hist := [⟨"x", "5511999000009", none, true, 7⟩] }
      (by decide) (by decide) (by decide) (by decide) (by decide) (by decide)
      (by decide) (by decide)⟩

/-- C1 counterexample: the claim says that after any run, a contact with an
item event of status success is absent from the queue and marked sent in
history.  When the per-contact transaction fails (here: for every
iteration), the run still publishes item events with status success and
ok=true, yet both contacts remain queued and unmarked: the claim is false
at this input. -/
theorem atomicity_claim_cex :
    Event.item "alice" "5511999000002" true "success"
        ∈ (runLoopForClient { envBase with txnFail := fun _ => some .early } sysBase).events ∧
    (∃ q ∈ (runLoopForClient { envBase with txnFail := fun _ => some .early } sysBase).sys.queue,
      q.phone = "5511999000002") ∧
    histSent (runLoopForClient { envBase with txnFail := fun _ => some .early } sysBase).sys.hist
        "5511999000002" = false := by
  refine ⟨?_, ?_, ?_⟩ <;> decide

theorem itemPhones_append (a b : List Event) :
    itemPhones (a ++ b) = itemPhones a ++ itemPhones b := by
  unfold itemPhones
  exact List.filterMap_append a b _

theorem itemPhones_concat_item (evs : List Event) (nm ph : String) (ok : Bool) (stt : String) :
    itemPhones (evs ++ [Event.item nm ph ok stt]) = itemPhones evs ++ [ph] := by
  rw [itemPhones_append]
  rfl

theorem dispatchCommit_events (env : Env) (useIA : Bool) (i : Nat) (st : LoopSt)
    (c : QueueItem) :
    ∃ ok stt,
      (dispatchCommit env useIA i st c).state.events
          = st.events ++ [Event.item c.name c.phone ok stt] ∧
      (dispatchCommit env useIA i st c).state.attempted = c.phone :: st.attempted := by
  unfold dispatchCommit
  by_cases hms : stopAt env (checkPostDispatch i) = true
  · exact ⟨false, "stopped", by simp [hms, StepOut.state], by simp [hms, StepOut.state]⟩
  · rw [Bool.not_eq_true] at hms
    cases htx : env.txnFail i with
    | none =>
      exact ⟨useIA && env.dispatchOk i,
        (if useIA then (if env.dispatchOk i then "success" else "error") else "skipped"),
        by simp [hms, htx, StepOut.state], by simp [hms, htx, StepOut.state]⟩
    | some tf =>
      cases tf
      · exact ⟨useIA && env.dispatchOk i,
          (if useIA then (if env.dispatchOk i then "success" else "error") else "skipped"),
          by simp [hms, htx, StepOut.state], by simp [hms, htx, StepOut.state]⟩
      · exact ⟨useIA && env.dispatchOk i,
          (if useIA then (if env.dispatchOk i then "success" else "error") else "skipped"),
          by simp [hms, htx, StepOut.state], by simp [hms, htx, StepOut.state]⟩

theorem runStep_cases (env : Env) (useIA : Bool) (delays : List Int)
    (remainingToday i : Nat) (st : LoopSt) :
    ((runStep env useIA delays remainingToday i st).state.events = st.events ∧
      (runStep env useIA delays remainingToday i st).state.attempted = st.attempted ∧
      (runStep env useIA delays remainingToday i st).state.queue = st.queue ∧
      (runStep env useIA delays remainingToday i st).state.hist = st.hist ∧
      (runStep env useIA delays remainingToday i st).state.processed = st.processed) ∨
    (∃ c, selectNext st.queue st.hist st.attempted = some c ∧
      runStep env useIA delays remainingToday i st = dispatchCommit env useIA i st c) := by
  unfold runStep
  split
  · exact Or.inl ⟨rfl, rfl, rfl, rfl, rfl⟩
  split
  · exact Or.inl ⟨rfl, rfl, rfl, rfl, rfl⟩
  split
  · exact Or.inl ⟨rfl, rfl, rfl, rfl, rfl⟩
  split
  · exact Or.inl ⟨rfl, rfl, rfl, rfl, rfl⟩
  split
  · exact Or.inl ⟨rfl, rfl, rfl, rfl, rfl⟩
  split
  · exact Or.inl ⟨rfl, rfl, rfl, rfl, rfl⟩
  · next c heq => exact Or.inr ⟨c, heq, rfl⟩

theorem runStep_phones_inv (env : Env) (useIA : Bool) (delays : List Int)
    (remainingToday i : Nat) (st : LoopSt)
    (hnd : (itemPhones st.events).Nodup)
    (hsub : ∀ ph ∈ itemPhones st.events, ph ∈ st.attempted) :
    (itemPhones (runStep env useIA delays remainingToday i st).state.events).Nodup ∧
    (∀ ph ∈ itemPhones (runStep env useIA delays remainingToday i st).state.events,
      ph ∈ (runStep env useIA delays remainingToday i st).state.attempted) := by
  rcases runStep_cases env useIA delays remainingToday i st with ⟨he, ha, -, -, -⟩ | ⟨c, hsel, heq⟩
  · rw [he, ha]; exact ⟨hnd, hsub⟩
  · obtain ⟨-, -, hnotat⟩ := selectNext_mem _ _ _ c hsel
    have hnotev : c.phone ∉ itemPhones st.events := fun hm => hnotat (hsub _ hm)
    obtain ⟨ok, stt, hde, hda⟩ := dispatchCommit_events env useIA i st c
    rw [heq, hde, hda, itemPhones_concat_item]
    constructor
    · rw [List.nodup_append]
      refine ⟨hnd, List.nodup_singleton _, ?_⟩
      intro a ha1 ha2
      simp at ha2
      subst ha2
      exact hnotev ha1
    · intro ph hm
      rcases List.mem_append.mp hm with hm | hm
      · exact List.mem_cons_of_mem _ (hsub _ hm)
      · simp at hm; subst hm; exact List.mem_cons_self _ _

theorem runLoop_phones (env : Env) (useIA : Bool) (delays : List Int)
    (remainingToday : Nat) :
    ∀ (fuel i : Nat) (st : LoopSt),
      (itemPhones st.events).Nodup →
      (∀ ph ∈ itemPhones st.events, ph ∈ st.attempted) →
      (itemPhones (runLoop env useIA delays remainingToday i fuel st).1.events).Nodup ∧
      (∀ ph ∈ itemPhones (runLoop env useIA delays remainingToday i fuel st).1.events,
        ph ∈ (runLoop env useIA delays remainingToday i fuel st).1.attempted) := by
  intro fuel
  induction fuel with
  | zero => intro i st hnd hsub; exact ⟨hnd, hsub⟩
  | succ n ih =>
    intro i st hnd hsub
    have hstep := runStep_phones_inv env useIA delays remainingToday i st hnd hsub
    unfold runLoop
    cases hrs : runStep env useIA delays remainingToday i st with
    | cont st1 =>
      rw [hrs] at hstep
      exact ih (i + 1) st1 hstep.1 hstep.2
    | brk st1 =>
      rw [hrs] at hstep
      exact hstep
    | crash st1 =>
      rw [hrs] at hstep
      exact hstep

theorem runLoopFinish_shape (env : Env) (s : Sys) (events : List Event) (stF : LoopSt)
    (crashed : Bool) :
    (∀ nm ph ok stt,
      (Event.item nm ph ok stt ∈ (runLoopFinish env s events stF crashed).events ↔
        Event.item nm ph ok stt ∈ events ∨ Event.item nm ph ok stt ∈ stF.events)) ∧
    itemPhones (runLoopFinish env s events stF crashed).events
        = itemPhones events ++ itemPhones stF.events ∧
    (runLoopFinish env s events stF crashed).sys.queue = stF.queue ∧
    (runLoopFinish env s events stF crashed).sys.hist = stF.hist := by
  unfold runLoopFinish
  split
  · exact ⟨fun nm ph ok stt => by simp, itemPhones_append _ _, rfl, rfl⟩
  split
  · exact ⟨fun nm ph ok stt => by simp, itemPhones_append _ _, rfl, rfl⟩
  · refine ⟨fun nm ph ok stt => by simp, ?_, rfl, rfl⟩
    rw [itemPhones_append, itemPhones_append]
    simp [itemPhones]

theorem runLoopPhase_shape (env : Env) (s : Sys) (events : List Event) (dailyLimit : Nat)
    (useIA manualStop0 : Bool) (remainingToday : Nat) :
    ∃ stF : LoopSt,
      (runLoop env useIA
          (generateScheduleDelays env.rand env.fuel dailyLimit env.nowSec env.startSec env.endSec)
          remainingToday 0
          (min env.batchSize
            (generateScheduleDelays env.rand env.fuel dailyLimit
              env.nowSec env.startSec env.endSec).length)
          { queue := s.queue, hist := s.hist, attempted := [], processed := 0,
            events := [], manualStop := manualStop0 }).1 = stF ∧
      (∀ nm ph ok stt,
        (Event.item nm ph ok stt
            ∈ (runLoopPhase env s events dailyLimit useIA manualStop0 remainingToday).events ↔
          Event.item nm ph ok stt ∈ events ∨ Event.item nm ph ok stt ∈ stF.events)) ∧
      itemPhones (runLoopPhase env s events dailyLimit useIA manualStop0 remainingToday).events
          = itemPhones events ++ itemPhones stF.events ∧
      (runLoopPhase env s events dailyLimit useIA manualStop0 remainingToday).sys.queue
          = stF.queue ∧
      (runLoopPhase env s events dailyLimit useIA manualStop0 remainingToday).sys.hist
          = stF.hist := by
  refine ⟨_, rfl, ?_⟩
  unfold runLoopPhase
  obtain ⟨hmem, hphones, hq, hh⟩ := runLoopFinish_shape env s
    (events ++
      (if !manualStop0 then
        [Event.schedule
          (cumsum ((generateScheduleDelays env.rand env.fuel dailyLimit
              env.nowSec env.startSec env.endSec).take
            (min (min env.batchSize
              (generateScheduleDelays env.rand env.fuel dailyLimit
                env.nowSec env.startSec env.endSec).length) remainingToday)))
          remainingToday dailyLimit]
       else []))
    (runLoop env useIA
      (generateScheduleDelays env.rand env.fuel dailyLimit env.nowSec env.startSec env.endSec)
      remainingToday 0
      (min env.batchSize
        (generateScheduleDelays env.rand env.fuel dailyLimit
          env.nowSec env.startSec env.endSec).length)
      { queue := s.queue, hist := s.hist, attempted := [], processed := 0,
        events := [], manualStop := manualStop0 }).1
    (runLoop env useIA
      (generateScheduleDelays env.rand env.fuel dailyLimit env.nowSec env.startSec env.endSec)
      remainingToday 0
      (min env.batchSize
        (generateScheduleDelays env.rand env.fuel dailyLimit
          env.nowSec env.startSec env.endSec).length)
      { queue := s.queue, hist := s.hist, attempted := [], processed := 0,
        events := [], manualStop := manualStop0 }).2
  refine ⟨?_, ?_, hq, hh⟩
  · intro nm ph ok stt
    rw [hmem nm ph ok stt]
    constructor
    · intro hm
      rcases hm with hm | hm
      · rcases List.mem_append.mp hm with hm | hm
        · exact Or.inl hm
        · split at hm <;> simp at hm
      · exact Or.inr hm
    · intro hm
      rcases hm with hm | hm
      · exact Or.inl (List.mem_append_left _ hm)
      · exact Or.inr hm
  · rw [hphones, itemPhones_append]
    have hs : itemPhones
        (if !manualStop0 then
          [Event.schedule
            (cumsum ((generateScheduleDelays env.rand env.fuel dailyLimit
                env.nowSec env.startSec env.endSec).take
              (min (min env.batchSize
                (generateScheduleDelays env.rand env.fuel dailyLimit
                  env.nowSec env.startSec env.endSec).length) remainingToday)))
            remainingToday dailyLimit]
         else []) = [] := by
      split <;> rfl
    rw [hs, List.append_nil]

theorem runLoopPhase_phones_nodup (env : Env) (s : Sys) (events : List Event)
    (dailyLimit : Nat) (useIA manualStop0 : Bool) (remainingToday : Nat)
    (hev : itemPhones events = []) :
    (itemPhones
      (runLoopPhase env s events dailyLimit useIA manualStop0 remainingToday).events).Nodup := by
  obtain ⟨stF, hstF, -, hphones, -, -⟩ :=
    runLoopPhase_shape env s events dailyLimit useIA manualStop0 remainingToday
  rw [hphones, hev, List.nil_append, ← hstF]
  exact (runLoop_phones env useIA _ remainingToday _ 0 _ (by simp [itemPhones])
    (by simp [itemPhones])).1

theorem runQuotaPhase_phones_nodup (env : Env) (s : Sys) (events : List Event)
    (hev : itemPhones events = []) :
    (itemPhones (runQuotaPhase env s events).events).Nodup := by
  unfold runQuotaPhase
  simp only []
  repeat' split
  all_goals
    first
      | (rw [itemPhones_append, hev]; simp [itemPhones])
      | exact runLoopPhase_phones_nodup env _ _ _ _ _ _ hev

theorem runTry_phones_nodup (env : Env) (s : Sys) :
    (itemPhones (runTry env s).events).Nodup := by
  unfold runTry
  simp only []
  repeat' split
  all_goals
    first
      | (simp [itemPhones]; done)
      | (apply runQuotaPhase_phones_nodup; rfl)

/-- C5: at most one attempt per phone per run.  Over every environment
(arbitrary dispatcher outcomes, transaction failures, stop-request timing
and injected exceptions) and every initial state, no phone number appears
more than once among the item events published by a single runLoopForClient
call. -/
theorem at_most_one_attempt_per_phone (env : Env) (s : Sys) :
    (itemPhones (runLoopForClient env s).events).Nodup := by
  unfold runLoopForClient
  split
  · simp [itemPhones]
  split
  · simp [itemPhones]
  · exact runTry_phones_nodup env _

theorem dispatchCommit_stopped (env : Env) (useIA : Bool) (i : Nat) (st : LoopSt)
    (c : QueueItem) (hms : stopAt env (checkPostDispatch i) = true) :
    dispatchCommit env useIA i st c = .brk
      { st with attempted := c.phone :: st.attempted,
                events := st.events ++ [Event.item c.name c.phone false "stopped"],
                manualStop := true } := by
  unfold dispatchCommit
  simp [hms]

/-- C10: a stop first observed at the post-dispatch checkpoint (after the
contact was selected and dispatched, before the commit) skips the commit
entirely: the step breaks with the queue, history and processed counter
untouched, and publishes an item event with status stopped and ok = false —
whatever the dispatch outcome was, including a successful send.  The
selected contact is still in the queue with its history not marked sent, so
it is eligible again for a future run (which starts with an empty
attemptedPhones set). -/
theorem stop_after_dispatch_skips_commit (env : Env) (useIA : Bool) (delays : List Int)
    (remainingToday i : Nat) (st : LoopSt) (c : QueueItem)
    (h1 : stopAt env (checkTop i) = false)
    (h2 : stopAt env (checkSleep i) = false)
    (h3 : stopAt env (checkPostSleep i) = false)
    (h4 : stopAt env (checkPostDispatch i) = true)
    (h5 : env.crashAt ≠ some (.select i))
    (h6 : i < remainingToday)
    (h7 : selectNext st.queue st.hist st.attempted = some c) :
    runStep env useIA delays remainingToday i st = .brk
      { st with attempted := c.phone :: st.attempted,
                events := st.events ++ [Event.item c.name c.phone false "stopped"],
                manualStop := true } ∧
    c ∈ st.queue ∧ histSent st.hist c.phone = false ∧ eligible st.hist [] c = true := by
  obtain ⟨hq, hh, -⟩ := selectNext_mem _ _ _ c h7
  refine ⟨?_, hq, hh, by simp [eligible, hh]⟩
  unfold runStep
  rw [if_neg (by simp [h1]), if_neg (Nat.not_le.mpr h6), if_neg (by simp [h2]),
    if_neg (by simp [h3]), if_neg h5, h7]
  exact dispatchCommit_stopped env useIA i st c h4

/-- Witness for C10: stop arriving exactly at the post-dispatch checkpoint
of iteration 0, with a dispatcher that succeeds. -/
theorem stop_after_dispatch_skips_commit_witness :
    (stopAt { envBase with stopTime := some (checkPostDispatch 0) } (checkTop 0) = false ∧
      stopAt { envBase with stopTime := some (checkPostDispatch 0) } (checkSleep 0) = false ∧
      stopAt { envBase with stopTime := some (checkPostDispatch 0) } (checkPostSleep 0) = false ∧
      stopAt { envBase with stopTime := some (checkPostDispatch 0) } (checkPostDispatch 0) = true ∧
      ({ envBase with stopTime := some (checkPostDispatch 0) } : Env).crashAt
          ≠ some (.select 0) ∧
      0 < 30 ∧
      selectNext sysBase.queue ([] : List HistItem) ([] : List String)
          = some { name := "alice", phone := "5511999000002", niche := none }) ∧
    (runStep { envBase with stopTime := some (checkPostDispatch 0) } true [0] 30 0
        { queue := sysBase.queue, hist := [], attempted := [], processed := 0,
          events := [], manualStop := false } = .brk
      { queue := sysBase.queue, hist := [], attempted := ["5511999000002"], processed := 0,
        events := [Event.item "alice" "5511999000002" false "stopped"], manualStop := true } ∧
      ({ name := "alice", phone := "5511999000002", niche := none } : QueueItem)
          ∈ sysBase.queue ∧
      histSent [] "5511999000002" = false ∧
      eligible [] [] { name := "alice", phone := "5511999000002", niche := none } = true) := by
  refine ⟨⟨by decide, by decide, by decide, by decide, by decide, by decide, by decide⟩, ?_⟩
  have h := stop_after_dispatch_skips_commit
    { envBase with stopTime := some (checkPostDispatch 0) } true [0] 30 0
    { queue := sysBase.queue, hist := [], attempted := [], processed := 0,
      events := [], manualStop := false }
    { name := "alice", phone := "5511999000002", niche := none }
    (by decide) (by decide) (by decide) (by decide) (by decide) (by decide) (by decide)
  simpa using h

theorem atomicInv_stopped (hist0 : List HistItem) (today : Nat) (st : LoopSt)
    (c : QueueItem) (hInv : AtomicInv hist0 today st) :
    AtomicInv hist0 today
      { st with attempted := c.phone :: st.attempted,
                events := st.events ++ [Event.item c.name c.phone false "stopped"],
                manualStop := true } := by
  obtain ⟨I1, I2, I3, I4⟩ := hInv
  refine ⟨?_, ?_, ?_, ?_⟩
  · intro nm ph ok hm
    rcases List.mem_append.mp hm with hm | hm
    · exact I1 nm ph ok hm
    · simp at hm
  · intro nm ph ok stt hstt hm
    rcases List.mem_append.mp hm with hm | hm
    · exact I2 nm ph ok stt hstt hm
    · exfalso
      simp at hm
      rcases hm with ⟨-, -, -, rfl⟩
      rcases hstt with h | h <;> exact absurd h (by decide)
  · intro nm ph ok stt hm
    rcases List.mem_append.mp hm with hm | hm
    · exact List.mem_cons_of_mem _ (I3 nm ph ok stt hm)
    · simp at hm
      rcases hm with ⟨-, rfl, -, -⟩
      exact List.mem_cons_self _ _
  · intro p hp
    exact I4 p (fun hmem => hp (List.mem_cons_of_mem _ hmem))

theorem atomicInv_commit_mark (hist0 : List HistItem) (today : Nat) (st : LoopSt)
    (c : QueueItem) (p' : Nat) (ok : Bool) (b : Bool)
    (hnat : c.phone ∉ st.attempted)
    (hInv : AtomicInv hist0 today st) :
    AtomicInv hist0 today
      { queue := deleteQueue st.queue c.phone,
        hist := upsertHist st.hist c.name c.phone c.niche today,
        attempted := c.phone :: st.attempted,
        processed := p',
        events := st.events ++ [Event.item c.name c.phone ok "success"],
        manualStop := b } := by
  obtain ⟨I1, I2, I3, I4⟩ := hInv
  refine ⟨?_, ?_, ?_, ?_⟩
  · intro nm ph ok1 hm
    rcases List.mem_append.mp hm with hm | hm
    · obtain ⟨hq, ⟨h0, h0mem, h0ph, h0sent, h0day⟩⟩ := I1 nm ph ok1 hm
      have hne : ph ≠ c.phone := fun he => hnat (he ▸ I3 nm ph ok1 "success" hm)
      refine ⟨?_, ?_⟩
      · intro q hq2
        exact hq q ((deleteQueue_mem st.queue c.phone q).mp hq2).1
      · exact ⟨h0, upsertHist_mem_of_ne st.hist c.name c.phone c.niche today h0
          h0mem (h0ph ▸ hne), h0ph, h0sent, h0day⟩
    · simp only [List.mem_singleton, Event.item.injEq] at hm
      obtain ⟨rfl, rfl, -, -⟩ := hm
      refine ⟨?_, upsertHist_mem_self st.hist c.name c.phone c.niche today⟩
      intro q hq2
      exact ((deleteQueue_mem st.queue c.phone q).mp hq2).2
  · intro nm ph ok1 stt hstt hm
    rcases List.mem_append.mp hm with hm | hm
    · obtain ⟨hq, hflag⟩ := I2 nm ph ok1 stt hstt hm
      have hne : ph ≠ c.phone := fun he => hnat (he ▸ I3 nm ph ok1 stt hm)
      refine ⟨?_, ?_⟩
      · intro q hq2
        exact hq q ((deleteQueue_mem st.queue c.phone q).mp hq2).1
      · rw [histSent_upsert_ne st.hist c.name c.phone c.niche today ph hne]
        exact hflag
    · exfalso
      simp only [List.mem_singleton, Event.item.injEq] at hm
      obtain ⟨-, -, -, rfl⟩ := hm
      rcases hstt with h | h <;> exact absurd h (by decide)
  · intro nm ph ok1 stt hm
    rcases List.mem_append.mp hm with hm | hm
    · exact List.mem_cons_of_mem _ (I3 nm ph ok1 stt hm)
    · simp only [List.mem_singleton, Event.item.injEq] at hm
      obtain ⟨-, rfl, -, -⟩ := hm
      exact List.mem_cons_self _ _
  · intro p hp
    have hne : p ≠ c.phone := fun he => hp (he ▸ List.mem_cons_self _ _)
    rw [histSent_upsert_ne st.hist c.name c.phone c.niche today p hne]
    exact I4 p (fun hmem => hp (List.mem_cons_of_mem _ hmem))

theorem atomicInv_commit_nomark (hist0 : List HistItem) (today : Nat) (st : LoopSt)
    (c : QueueItem) (p' : Nat) (ok : Bool) (b : Bool) (stt0 : String)
    (hstt0 : stt0 = "error" ∨ stt0 = "skipped")
    (hnat : c.phone ∉ st.attempted)
    (hInv : AtomicInv hist0 today st) :
    AtomicInv hist0 today
      { queue := deleteQueue st.queue c.phone,
        hist := st.hist,
        attempted := c.phone :: st.attempted,
        processed := p',
        events := st.events ++ [Event.item c.name c.phone ok stt0],
        manualStop := b } := by
  obtain ⟨I1, I2, I3, I4⟩ := hInv
  refine ⟨?_, ?_, ?_, ?_⟩
  · intro nm ph ok1 hm
    rcases List.mem_append.mp hm with hm | hm
    · obtain ⟨hq, hhist⟩ := I1 nm ph ok1 hm
      refine ⟨?_, hhist⟩
      intro q hq2
      exact hq q ((deleteQueue_mem st.queue c.phone q).mp hq2).1
    · exfalso
      simp only [List.mem_singleton, Event.item.injEq] at hm
      obtain ⟨-, -, -, heq⟩ := hm
      rcases hstt0 with h | h <;> (subst h; exact absurd heq (by decide))
  · intro nm ph ok1 stt hstt hm
    rcases List.mem_append.mp hm with hm | hm
    · obtain ⟨hq, hflag⟩ := I2 nm ph ok1 stt hstt hm
      refine ⟨?_, hflag⟩
      intro q hq2
      exact hq q ((deleteQueue_mem st.queue c.phone q).mp hq2).1
    · simp only [List.mem_singleton, Event.item.injEq] at hm
      obtain ⟨-, rfl, -, -⟩ := hm
      refine ⟨?_, I4 c.phone hnat⟩
      intro q hq2
      exact ((deleteQueue_mem st.queue c.phone q).mp hq2).2
  · intro nm ph ok1 stt hm
    rcases List.mem_append.mp hm with hm | hm
    · exact List.mem_cons_of_mem _ (I3 nm ph ok1 stt hm)
    · simp only [List.mem_singleton, Event.item.injEq] at hm
      obtain ⟨-, rfl, -, -⟩ := hm
      exact List.mem_cons_self _ _
  · intro p hp
    exact I4 p (fun hmem => hp (List.mem_cons_of_mem _ hmem))

theorem dispatchCommit_commit (env : Env) (useIA : Bool) (i : Nat) (st : LoopSt)
    (c : QueueItem) (hms : stopAt env (checkPostDispatch i) = false)
    (htx : env.txnFail i = none) :
    dispatchCommit env useIA i st c = .cont
      { queue := deleteQueue st.queue c.phone,
        hist := if useIA && env.dispatchOk i then
            upsertHist st.hist c.name c.phone c.niche env.today
          else st.hist,
        attempted := c.phone :: st.attempted,
        processed := st.processed + (if useIA && env.dispatchOk i then 1 else 0),
        events := st.events ++ [Event.item c.name c.phone (useIA && env.dispatchOk i)
          (if useIA then (if env.dispatchOk i then "success" else "error") else "skipped")],
        manualStop := false } := by
  unfold dispatchCommit
  simp [hms, htx]

theorem dispatchCommit_atomicInv (env : Env) (useIA : Bool) (i : Nat) (st : LoopSt)
    (c : QueueItem) (hist0 : List HistItem)
    (htx : env.txnFail i = none)
    (hsel : selectNext st.queue st.hist st.attempted = some c)
    (hInv : AtomicInv hist0 env.today st) :
    AtomicInv hist0 env.today (dispatchCommit env useIA i st c).state := by
  obtain ⟨-, -, hnat⟩ := selectNext_mem _ _ _ c hsel
  by_cases hms : stopAt env (checkPostDispatch i) = true
  · rw [dispatchCommit_stopped env useIA i st c hms]
    exact atomicInv_stopped hist0 env.today st c hInv
  · rw [Bool.not_eq_true] at hms
    rw [dispatchCommit_commit env useIA i st c hms htx]
    cases hu : useIA with
    | false =>
      simp only [StepOut.state, Bool.false_and, if_neg (by decide : ¬(false = true)),
        Bool.false_eq_true]
      simp only [if_false]
      exact atomicInv_commit_nomark hist0 env.today st c _ _ _ "skipped" (Or.inr rfl) hnat hInv
    | true =>
      cases hd : env.dispatchOk i with
      | false =>
        simp only [StepOut.state, Bool.true_and]
        simp only [if_neg (by decide : ¬(false = true)), Bool.false_eq_true, if_false]
        exact atomicInv_commit_nomark hist0 env.today st c _ _ _ "error" (Or.inl rfl) hnat hInv
      | true =>
        simp only [StepOut.state, Bool.true_and, if_pos rfl]
        exact atomicInv_commit_mark hist0 env.today st c _ _ _ hnat hInv

theorem runStep_atomicInv (env : Env) (useIA : Bool) (delays : List Int)
    (remainingToday i : Nat) (st : LoopSt) (hist0 : List HistItem)
    (htx : env.txnFail i = none)
    (hInv : AtomicInv hist0 env.today st) :
    AtomicInv hist0 env.today (runStep env useIA delays remainingToday i st).state := by
  rcases runStep_cases env useIA delays remainingToday i st with ⟨he, ha, hq, hh, -⟩ | ⟨c, hsel, heq⟩
  · unfold AtomicInv at *
    rw [he, ha, hq, hh]
    exact hInv
  · rw [heq]
    exact dispatchCommit_atomicInv env useIA i st c hist0 htx hsel hInv

theorem runLoop_atomicInv (env : Env) (useIA : Bool) (delays : List Int)
    (remainingToday : Nat) (hist0 : List HistItem)
    (htxn : ∀ i, env.txnFail i = none) :
    ∀ (fuel i : Nat) (st : LoopSt), AtomicInv hist0 env.today st →
      AtomicInv hist0 env.today (runLoop env useIA delays remainingToday i fuel st).1 := by
  intro fuel
  induction fuel with
  | zero => intro i st hInv; exact hInv
  | succ n ih =>
    intro i st hInv
    have hstep := runStep_atomicInv env useIA delays remainingToday i st hist0 (htxn i) hInv
    unfold runLoop
    cases hrs : runStep env useIA delays remainingToday i st with
    | cont st1 =>
      rw [hrs] at hstep
      exact ih (i + 1) st1 hstep
    | brk st1 =>
      rw [hrs] at hstep
      exact hstep
    | crash st1 =>
      rw [hrs] at hstep
      exact hstep

theorem runLoopPhase_atomic (env : Env) (s : Sys) (events : List Event) (dailyLimit : Nat)
    (useIA manualStop0 : Bool) (remainingToday : Nat)
    (htxn : ∀ i, env.txnFail i = none)
    (hev : ∀ nm ph ok stt, Event.item nm ph ok stt ∉ events) :
    (∀ nm ph ok, Event.item nm ph ok "success"
        ∈ (runLoopPhase env s events dailyLimit useIA manualStop0 remainingToday).events →
      (∀ q ∈ (runLoopPhase env s events dailyLimit useIA manualStop0 remainingToday).sys.queue,
        q.phone ≠ ph) ∧
      ∃ h ∈ (runLoopPhase env s events dailyLimit useIA manualStop0 remainingToday).sys.hist,
        h.phone = ph ∧ h.sent = true ∧ h.updatedDay = env.today) ∧
    (∀ nm ph ok stt, stt = "error" ∨ stt = "skipped" →
      Event.item nm ph ok stt
          ∈ (runLoopPhase env s events dailyLimit useIA manualStop0 remainingToday).events →
      (∀ q ∈ (runLoopPhase env s events dailyLimit useIA manualStop0 remainingToday).sys.queue,
        q.phone ≠ ph) ∧
      histSent (runLoopPhase env s events dailyLimit useIA manualStop0 remainingToday).sys.hist ph
          = histSent s.hist ph) := by
  obtain ⟨stF, hstF, hmem, -, hq, hh⟩ :=
    runLoopPhase_shape env s events dailyLimit useIA manualStop0 remainingToday
  have hInvF : AtomicInv s.hist env.today stF := by
    rw [← hstF]
    apply runLoop_atomicInv env useIA _ remainingToday s.hist htxn
    refine ⟨?_, ?_, ?_, ?_⟩
    · intro nm ph ok hm; simp at hm
    · intro nm ph ok stt hstt hm; simp at hm
    · intro nm ph ok stt hm; simp at hm
    · intro p hp; rfl
  obtain ⟨I1, I2, -, -⟩ := hInvF
  constructor
  · intro nm ph ok hm
    rcases (hmem nm ph ok "success").mp hm with hm | hm
    · exact absurd hm (hev nm ph ok "success")
    · obtain ⟨hqc, hhc⟩ := I1 nm ph ok hm
      rw [hq, hh]
      exact ⟨hqc, hhc⟩
  · intro nm ph ok stt hstt hm
    rcases (hmem nm ph ok stt).mp hm with hm | hm
    · exact absurd hm (hev nm ph ok stt)
    · obtain ⟨hqc, hflag⟩ := I2 nm ph ok stt hstt hm
      rw [hq, hh]
      exact ⟨hqc, hflag⟩

theorem runQuotaPhase_atomic (env : Env) (s : Sys) (events : List Event)
    (htxn : ∀ i, env.txnFail i = none)
    (hev : ∀ nm ph ok stt, Event.item nm ph ok stt ∉ events) :
    (∀ nm ph ok, Event.item nm ph ok "success" ∈ (runQuotaPhase env s events).events →
      (∀ q ∈ (runQuotaPhase env s events).sys.queue, q.phone ≠ ph) ∧
      ∃ h ∈ (runQuotaPhase env s events).sys.hist,
        h.phone = ph ∧ h.sent = true ∧ h.updatedDay = env.today) ∧
    (∀ nm ph ok stt, stt = "error" ∨ stt = "skipped" →
      Event.item nm ph ok stt ∈ (runQuotaPhase env s events).events →
      (∀ q ∈ (runQuotaPhase env s events).sys.queue, q.phone ≠ ph) ∧
      histSent (runQuotaPhase env s events).sys.hist ph = histSent s.hist ph) := by
  unfold runQuotaPhase
  simp only []
  repeat' split
  all_goals
    first
      | exact runLoopPhase_atomic env s events _ _ _ _ htxn hev
      | (constructor
         · intro nm ph ok hm
           rcases List.mem_append.mp hm with hm | hm
           · exact absurd hm (hev nm ph ok "success")
           · simp at hm
         · intro nm ph ok stt hstt hm
           rcases List.mem_append.mp hm with hm | hm
           · exact absurd hm (hev nm ph ok stt)
           · simp at hm)

theorem runTry_atomic (env : Env) (s : Sys)
    (htxn : ∀ i, env.txnFail i = none) :
    (∀ nm ph ok, Event.item nm ph ok "success" ∈ (runTry env s).events →
      (∀ q ∈ (runTry env s).sys.queue, q.phone ≠ ph) ∧
      ∃ h ∈ (runTry env s).sys.hist,
        h.phone = ph ∧ h.sent = true ∧ h.updatedDay = env.today) ∧
    (∀ nm ph ok stt, stt = "error" ∨ stt = "skipped" →
      Event.item nm ph ok stt ∈ (runTry env s).events →
      (∀ q ∈ (runTry env s).sys.queue, q.phone ≠ ph) ∧
      histSent (runTry env s).sys.hist ph = histSent s.hist ph) := by
  unfold runTry
  simp only []
  repeat' split
  all_goals
    first
      | exact runQuotaPhase_atomic env _ _ htxn (fun nm ph ok stt => by simp)
      | (constructor
         · intro nm ph ok hm
           simp at hm
         · intro nm ph ok stt hstt hm
           simp at hm)

/-- C1 amended: queue/history atomicity postcondition of a run, assuming
every per-contact transaction commits (no persistence_error).  After any
runLoopForClient call in which no per-contact transaction fails, every
contact with a published item event of status success is absent from the
final queue and present in history with sent = true and updatedAt on the
current date, and every contact with an item event of status error or
skipped is absent from the queue with its history sent flag unchanged from
the initial state.  (With a failing per-contact transaction the claim as
originally stated is false: see the counterexample.)  The queue-delete and
history-upsert of one contact are a single transaction in the model
(dispatchCommit applies both or neither). -/
theorem queue_history_atomicity (env : Env) (s : Sys)
    (htxn : ∀ i, env.txnFail i = none) :
    (∀ nm ph ok, Event.item nm ph ok "success" ∈ (runLoopForClient env s).events →
      (∀ q ∈ (runLoopForClient env s).sys.queue, q.phone ≠ ph) ∧
      ∃ h ∈ (runLoopForClient env s).sys.hist,
        h.phone = ph ∧ h.sent = true ∧ h.updatedDay = env.today) ∧
    (∀ nm ph ok stt, stt = "error" ∨ stt = "skipped" →
      Event.item nm ph ok stt ∈ (runLoopForClient env s).events →
      (∀ q ∈ (runLoopForClient env s).sys.queue, q.phone ≠ ph) ∧
      histSent (runLoopForClient env s).sys.hist ph = histSent s.hist ph) := by
  unfold runLoopForClient
  split
  · constructor
    · intro nm ph ok hm; simp at hm
    · intro nm ph ok stt hstt hm; simp at hm
  split
  · constructor
    · intro nm ph ok hm; simp at hm
    · intro nm ph ok stt hstt hm; simp at hm
  · exact runTry_atomic env _ htxn

/-- Witness for C1 amended: the base environment (no transaction failures)
on the two-contact state. -/
theorem queue_history_atomicity_witness :
    (∀ i, envBase.txnFail i = none) ∧
    ((∀ nm ph ok, Event.item nm ph ok "success" ∈ (runLoopForClient envBase sysBase).events →
      (∀ q ∈ (runLoopForClient envBase sysBase).sys.queue, q.phone ≠ ph) ∧
      ∃ h ∈ (runLoopForClient envBase sysBase).sys.hist,
        h.phone = ph ∧ h.sent = true ∧ h.updatedDay = envBase.today) ∧
    (∀ nm ph ok stt, stt = "error" ∨ stt = "skipped" →
      Event.item nm ph ok stt ∈ (runLoopForClient envBase sysBase).events →
      (∀ q ∈ (runLoopForClient envBase sysBase).sys.queue, q.phone ≠ ph) ∧
      histSent (runLoopForClient envBase sysBase).sys.hist ph = histSent sysBase.hist ph)) :=
  ⟨fun _ => rfl, queue_history_atomicity envBase sysBase (fun _ => rfl)⟩

end Luna
